import Mathlib

/-!
Verification development for the go-h5p content-packaging library.

The Go sources are shallowly embedded as follows:

* Go strings are modelled as lists of characters (`GoStr`); the operations of
  the `strings` and `path/filepath` packages used by the code are transliterated
  on that representation.
* JSON values are modelled by the inductive `Json`.
* Serialized archive-entry bytes are modelled by `ZipData`: a value marshalled
  by `json.MarshalIndent` is kept together with a tag recording the Go type it
  was marshalled from, raw asset bytes are `ZipData.raw`, and bytes that are not
  valid JSON are `ZipData.malformed`.  Unmarshalling a payload at the type it
  was marshalled from recovers the value (Go's `json.Unmarshal` composed with
  `json.MarshalIndent`, up to the `interface`/JSON-null normalisation modelled
  by `goInterfaceNorm`); unmarshalling `malformed` bytes fails.  Decoding valid
  JSON at a different Go type than it was produced from is not exercised by any
  theorem in this file and is conservatively mapped to failure.
* Fallible Go functions returning `error` are modelled with `Option`/`Except`.
* Go maps are modelled as association lists in insertion order.

Each claim theorem carries a doc comment naming the claim.
-/

/-- JSON values, the model of Go's generic `interface` representation of
unmarshalled JSON data. -/
inductive Json where
  | null
  | bool (b : Bool)
  | num (n : Int)
  | str (s : String)
  | arr (xs : List Json)
  | obj (fs : List (String × Json))

mutual

/-- Decidable equality for `Json`, written by hand (and structurally recursive,
so that it evaluates by kernel reduction) because deriving does not support
this nested inductive. -/
def Json.decEq (a b : Json) : Decidable (a = b) :=
  match a, b with
  | .null, .null => isTrue rfl
  | .null, .bool _ => isFalse (fun h => Json.noConfusion h)
  | .null, .num _ => isFalse (fun h => Json.noConfusion h)
  | .null, .str _ => isFalse (fun h => Json.noConfusion h)
  | .null, .arr _ => isFalse (fun h => Json.noConfusion h)
  | .null, .obj _ => isFalse (fun h => Json.noConfusion h)
  | .bool _, .null => isFalse (fun h => Json.noConfusion h)
  | .bool a, .bool b =>
    match Bool.decEq a b with
    | isTrue h => isTrue (by rw [h])
    | isFalse h => isFalse (fun he => h (Json.bool.inj he))
  | .bool _, .num _ => isFalse (fun h => Json.noConfusion h)
  | .bool _, .str _ => isFalse (fun h => Json.noConfusion h)
  | .bool _, .arr _ => isFalse (fun h => Json.noConfusion h)
  | .bool _, .obj _ => isFalse (fun h => Json.noConfusion h)
  | .num _, .null => isFalse (fun h => Json.noConfusion h)
  | .num _, .bool _ => isFalse (fun h => Json.noConfusion h)
  | .num a, .num b =>
    match Int.decEq a b with
    | isTrue h => isTrue (by rw [h])
    | isFalse h => isFalse (fun he => h (Json.num.inj he))
  | .num _, .str _ => isFalse (fun h => Json.noConfusion h)
  | .num _, .arr _ => isFalse (fun h => Json.noConfusion h)
  | .num _, .obj _ => isFalse (fun h => Json.noConfusion h)
  | .str _, .null => isFalse (fun h => Json.noConfusion h)
  | .str _, .bool _ => isFalse (fun h => Json.noConfusion h)
  | .str _, .num _ => isFalse (fun h => Json.noConfusion h)
  | .str a, .str b =>
    match String.decEq a b with
    | isTrue h => isTrue (by rw [h])
    | isFalse h => isFalse (fun he => h (Json.str.inj he))
  | .str _, .arr _ => isFalse (fun h => Json.noConfusion h)
  | .str _, .obj _ => isFalse (fun h => Json.noConfusion h)
  | .arr _, .null => isFalse (fun h => Json.noConfusion h)
  | .arr _, .bool _ => isFalse (fun h => Json.noConfusion h)
  | .arr _, .num _ => isFalse (fun h => Json.noConfusion h)
  | .arr _, .str _ => isFalse (fun h => Json.noConfusion h)
  | .arr xs, .arr ys =>
    match Json.decEqList xs ys with
    | isTrue h => isTrue (by rw [h])
    | isFalse h => isFalse (fun he => h (Json.arr.inj he))
  | .arr _, .obj _ => isFalse (fun h => Json.noConfusion h)
  | .obj _, .null => isFalse (fun h => Json.noConfusion h)
  | .obj _, .bool _ => isFalse (fun h => Json.noConfusion h)
  | .obj _, .num _ => isFalse (fun h => Json.noConfusion h)
  | .obj _, .str _ => isFalse (fun h => Json.noConfusion h)
  | .obj _, .arr _ => isFalse (fun h => Json.noConfusion h)
  | .obj fs, .obj gs =>
    match Json.decEqObj fs gs with
    | isTrue h => isTrue (by rw [h])
    | isFalse h => isFalse (fun he => h (Json.obj.inj he))
termination_by structural a

/-- Decidable equality for lists of `Json` values. -/
def Json.decEqList (xs ys : List Json) : Decidable (xs = ys) :=
  match xs, ys with
  | [], [] => isTrue rfl
  | [], _ :: _ => isFalse (fun h => List.noConfusion h)
  | _ :: _, [] => isFalse (fun h => List.noConfusion h)
  | x :: xs, y :: ys =>
    match Json.decEq x y with
    | isTrue h1 =>
      match Json.decEqList xs ys with
      | isTrue h2 => isTrue (by rw [h1, h2])
      | isFalse h2 => isFalse (fun he => h2 (List.tail_eq_of_cons_eq he))
    | isFalse h1 => isFalse (fun he => h1 (List.head_eq_of_cons_eq he))
termination_by structural xs

/-- Decidable equality for JSON object field lists. -/
def Json.decEqObj (xs ys : List (String × Json)) : Decidable (xs = ys) :=
  match xs, ys with
  | [], [] => isTrue rfl
  | [], _ :: _ => isFalse (fun h => List.noConfusion h)
  | _ :: _, [] => isFalse (fun h => List.noConfusion h)
  | (k, v) :: xs, (k', v') :: ys =>
    match String.decEq k k' with
    | isTrue hk =>
      match Json.decEq v v' with
      | isTrue hv =>
        match Json.decEqObj xs ys with
        | isTrue h2 => isTrue (by rw [hk, hv, h2])
        | isFalse h2 => isFalse (fun he => h2 (List.tail_eq_of_cons_eq he))
      | isFalse hv => isFalse (fun he => hv (congrArg Prod.snd (List.head_eq_of_cons_eq he)))
    | isFalse hk => isFalse (fun he => hk (congrArg Prod.fst (List.head_eq_of_cons_eq he)))
termination_by structural xs

end

instance : DecidableEq Json := Json.decEq

/-! ## Go strings and the string operations used by the package code -/

/-- Go strings, modelled as lists of characters. -/
abbrev GoStr := List Char

/-- Go `strings.HasPrefix`. -/
def goStartsWith (s pre : GoStr) : Bool := pre.isPrefixOf s

/-- Go `strings.HasSuffix`. -/
def goEndsWith (s suf : GoStr) : Bool := suf.isSuffixOf s

/-- Go `strings.Contains(s, c)` for a one-character separator. -/
def goContainsChar (s : GoStr) (c : Char) : Bool := s.contains c

/-- Go `strings.Split(s, "/")[0]`: the longest slash-free initial segment. -/
def goSplitFirst (s : GoStr) : GoStr := s.takeWhile (fun c => c != '/')

/-- Go `strings.TrimPrefix`. -/
def goTrimPre (s pre : GoStr) : GoStr :=
  if pre.isPrefixOf s then s.drop pre.length else s

/-- Go `path/filepath.Dir` restricted to already-clean slash-separated paths:
everything before the final slash, or a dot when there is no slash.
(`Clean`'s dot-segment normalisation is not modelled; every path appearing in a
theorem of this file is already clean.) -/
def filepathDir (s : GoStr) : GoStr :=
  if s.contains '/' then ((s.reverse.dropWhile (fun c => c != '/')).drop 1).reverse
  else ['.']

/-- Go `fmt.Sprintf` of a directory, a slash and a file name: plain
concatenation, no sanitization. -/
def pathConcat (dir file : GoStr) : GoStr := dir ++ '/' :: file

def h5pJsonName : GoStr := "h5p.json".toList

def contentJsonName : GoStr := "content/content.json".toList

def libraryJsonFile : GoStr := "library.json".toList

def semanticsJsonFile : GoStr := "semantics.json".toList

/-- The suffix `"/library.json"` matched by the archive reader. -/
def libraryJsonSuf : GoStr := '/' :: libraryJsonFile

/-- The suffix `"/semantics.json"` matched by the archive reader. -/
def semanticsJsonSuf : GoStr := '/' :: semanticsJsonFile

/-- The library directory-name convention token `"H5P."`. -/
def h5pNameToken : GoStr := "H5P.".toList

def slashStr : GoStr := "/".toList

/-! ## The entity model (h5p_package.go) -/

/-- `LibraryDependency`. -/
structure LibraryDependency where
  machineNameDep : String
  majorVersion : Int
  minorVersion : Int
deriving DecidableEq

/-- `PackageDefinition`, the payload of `h5p.json`. -/
structure PackageDefinition where
  title : String
  language : String
  mainLibrary : String
  embedTypes : List String
  license : String
  defaultLanguage : String
  author : String
  preloadedDependencies : List LibraryDependency
  editorDependencies : List LibraryDependency
deriving DecidableEq

/-- `FileReference`. -/
structure FileReference where
  path : String
deriving DecidableEq

/-- `LibraryDefinition`, the payload of `library.json`. -/
structure LibraryDefinition where
  title : String
  machineNameDef : String
  majorVersion : Int
  minorVersion : Int
  patchVersion : Int
  runnable : Bool
  author : String
  license : String
  description : String
  preloadedJs : List FileReference
  preloadedCss : List FileReference
  dropLibraryCss : List FileReference
  dependencies : List LibraryDependency
deriving DecidableEq

/-- `Copyright` from the question-set model. -/
structure Copyright where
  title : String
  author : String
  license : String
  version : String
  source : String
deriving DecidableEq

/-- `BackgroundImage`. -/
structure BackgroundImage where
  path : String
  mime : String
  copyright : Option Copyright
deriving DecidableEq

/-- `FeedbackRange` of the question-set model (`From`/`To`/`Text`). -/
structure FeedbackRange where
  rangeFrom : Int
  rangeTo : Int
  text : String
deriving DecidableEq

/-- `Question`: a library name plus an opaque `interface` params payload,
modelled as the JSON value it (un)marshals to; `none` is the nil interface. -/
structure Question where
  library : String
  params : Option Json
deriving DecidableEq

/-- `QuestionSet` (types.go of the h5p package). -/
structure QuestionSet where
  progressType : String
  passPercentage : Int
  backgroundImage : Option BackgroundImage
  questions : List Question
  showIntroPage : Bool
  startButtonText : String
  introduction : String
  title : String
  showResultPage : Bool
  message : String
  solutionButtonText : String
  overallFeedback : List FeedbackRange
deriving DecidableEq

/-- `Content`: an optional question set plus an opaque `Params interface`
payload modelled as a JSON value (`none` is the nil interface). -/
structure Content where
  questionSet : Option QuestionSet
  params : Option Json
deriving DecidableEq

/-- Serialized bytes of one archive entry, tagged by the Go value they were
marshalled from (see the header comment of this file). -/
inductive ZipData where
  | pkgDefJson (d : PackageDefinition)
  | contentJson (c : Content)
  | libDefJson (d : LibraryDefinition)
  | jsonVal (j : Json)
  | raw (b : List Nat)
  | malformed (b : List Nat)
deriving DecidableEq

/-- One archive entry: a path and its bytes. -/
structure ZipEntry where
  name : GoStr
  data : ZipData
deriving DecidableEq

/-- `Library`: definition, schema, machine name and a file map (modelled as an
association list in insertion order). -/
structure Library where
  definition : Option LibraryDefinition
  semantics : Option Json
  machineName : GoStr
  files : List (GoStr × ZipData)
deriving DecidableEq

/-- `H5PPackage`. -/
structure H5PPackage where
  packageDefinition : Option PackageDefinition
  content : Option Content
  libraries : List Library
deriving DecidableEq

/-- `NewH5PPackage`. -/
def NewH5PPackage : H5PPackage :=
  { packageDefinition := none, content := none, libraries := [] }

/-- `SetPackageDefinition`. -/
def SetPackageDefinition (pkg : H5PPackage) (d : PackageDefinition) : H5PPackage :=
  { pkg with packageDefinition := some d }

/-- `SetContent`. -/
def SetContent (pkg : H5PPackage) (c : Content) : H5PPackage :=
  { pkg with content := some c }

/-- `AddLibrary`: appends, preserving insertion order. -/
def AddLibrary (pkg : H5PPackage) (lib : Library) : H5PPackage :=
  { pkg with libraries := pkg.libraries ++ [lib] }

/-! ## Marshalling model

`json.Unmarshal` of JSON `null` into a Go `interface` variable leaves the nil
interface.  `goInterfaceNorm` is that normalisation; the unmarshal functions
below apply it to every `interface`-typed field. -/

/-- The value an `interface` field holds after a marshal/unmarshal round trip:
a field that marshalled to JSON `null` comes back as the nil interface. -/
def goInterfaceNorm (v : Option Json) : Option Json :=
  match v with
  | some Json.null => none
  | v => v

/-- `goInterfaceNorm` applied to the `Params` field of a `Question`. -/
def normQuestion (q : Question) : Question :=
  { q with params := goInterfaceNorm q.params }

/-- Normalisation of a `QuestionSet` under a marshal/unmarshal round trip. -/
def normQuestionSet (qs : QuestionSet) : QuestionSet :=
  { qs with questions := qs.questions.map normQuestion }

/-- Normalisation of a `Content` under a marshal/unmarshal round trip. -/
def normContent (c : Content) : Content :=
  { questionSet := c.questionSet.map normQuestionSet,
    params := goInterfaceNorm c.params }

/-- `json.Unmarshal(data, &pkgDef)` for a `PackageDefinition` target. -/
def unmarshalPackageDefinition (d : ZipData) : Option PackageDefinition :=
  match d with
  | .pkgDefJson d => some d
  | _ => none

/-- `json.Unmarshal(data, &content)` for a `Content` target. -/
def unmarshalContent (d : ZipData) : Option Content :=
  match d with
  | .contentJson c => some (normContent c)
  | _ => none

/-- `json.Unmarshal(data, &libDef)` for a `LibraryDefinition` target. -/
def unmarshalLibraryDefinition (d : ZipData) : Option LibraryDefinition :=
  match d with
  | .libDefJson d => some d
  | _ => none

/-- `json.Unmarshal(data, &semantics)` for an `interface` target: any valid
JSON succeeds, JSON `null` yields the nil interface.  The outer `Option` is
success/failure, the inner one the interface value. -/
def unmarshalGoValue (d : ZipData) : Option (Option Json) :=
  match d with
  | .jsonVal j => some (goInterfaceNorm (some j))
  | _ => none

/-! ## Archive writer (`writeToZip`, `CreateZipFile`) -/

/-- The entries `writeToZip` emits for one library: definition (if present),
then schema (if present), then the files in map order; every path is the plain
concatenation of the machine name, a slash and the relative name. -/
def writeLibraryToZip (lib : Library) : List ZipEntry :=
  (match lib.definition with
   | some d => [⟨pathConcat lib.machineName libraryJsonFile, ZipData.libDefJson d⟩]
   | none => []) ++
  (match lib.semantics with
   | some j => [⟨pathConcat lib.machineName semanticsJsonFile, ZipData.jsonVal j⟩]
   | none => []) ++
  lib.files.map (fun fd => ⟨pathConcat lib.machineName fd.1, fd.2⟩)

/-- `writeToZip`: `h5p.json` (when the package definition is non-nil), then
`content/content.json` (when the content is non-nil), then each library in
insertion order. -/
def writeToZip (pkg : H5PPackage) : List ZipEntry :=
  (match pkg.packageDefinition with
   | some d => [⟨h5pJsonName, ZipData.pkgDefJson d⟩]
   | none => []) ++
  (match pkg.content with
   | some c => [⟨contentJsonName, ZipData.contentJson c⟩]
   | none => []) ++
  (pkg.libraries.map writeLibraryToZip).flatten

/-- `CreateZipFile`: writes the package to an archive.  The file-system side
is outside the model; the archive produced is the entry list of `writeToZip`.
Marshalling of the entity model cannot fail, so neither can the writer. -/
def CreateZipFile (pkg : H5PPackage) : List ZipEntry := writeToZip pkg

/-! ## Archive reader (`processZipFile`, `LoadH5PPackage`) -/

/-- `isLibraryDirectory`: a top-level directory is recognised as a library
exactly when its name starts with the `"H5P."` token. -/
def isLibraryDirectory (name : GoStr) : Bool := goStartsWith name h5pNameToken

/-- Go map assignment `m[k] = v`: update in place if the key exists, else
append. -/
def goMapInsert (m : List (GoStr × ZipData)) (k : GoStr) (v : ZipData) :
    List (GoStr × ZipData) :=
  match m with
  | [] => [(k, v)]
  | kv :: rest => if kv.1 = k then (k, v) :: rest else kv :: goMapInsert rest k v

/-- `findOrCreateLibrary` combined with the caller's mutation of the returned
pointer: modify the first library with this machine name, or append a fresh
one (empty, with a non-nil file map) and modify that. -/
def findOrCreateLibrary (libs : List Library) (mn : GoStr) (f : Library → Library) :
    List Library :=
  match libs with
  | [] => [f { definition := none, semantics := none, machineName := mn, files := [] }]
  | l :: rest =>
    if l.machineName = mn then f l :: rest
    else l :: findOrCreateLibrary rest mn f

/-- Which structurally-required entry failed to unmarshal. -/
inductive JsonError where
  | badPackageDefinition
  | badContent
  | badLibraryDefinition
  | badSemantics
deriving DecidableEq

/-- The mutation `lib.Definition = &libDef` applied through the pointer
`findOrCreateLibrary` returns. -/
def setLibDef (d : LibraryDefinition) (lib : Library) : Library :=
  { lib with definition := some d }

/-- The mutation `lib.Semantics = semantics`. -/
def setLibSem (v : Option Json) (lib : Library) : Library :=
  { lib with semantics := v }

/-- The mutation `lib.Files[relativePath] = data` (with the nil-map
initialisation; the model's fresh library already has an empty map). -/
def addLibFile (p : GoStr) (d : ZipData) (lib : Library) : Library :=
  { lib with files := goMapInsert lib.files p d }

/-- `processZipFile`: dispatch one entry on its path, in the source's case
order.  Go creates a library before unmarshalling its `library.json` or
`semantics.json`; an unmarshal failure aborts the whole load, so that
intermediate state is unobservable and the two steps are modelled in one. -/
def processZipFile (pkg : H5PPackage) (e : ZipEntry) : Except JsonError H5PPackage :=
  if e.name = h5pJsonName then
    match unmarshalPackageDefinition e.data with
    | some d => .ok { pkg with packageDefinition := some d }
    | none => .error .badPackageDefinition
  else if e.name = contentJsonName then
    match unmarshalContent e.data with
    | some c => .ok { pkg with content := some c }
    | none => .error .badContent
  else if goEndsWith e.name libraryJsonSuf then
    match unmarshalLibraryDefinition e.data with
    | some d =>
      .ok { pkg with libraries := findOrCreateLibrary pkg.libraries (filepathDir e.name) (setLibDef d) }
    | none => .error .badLibraryDefinition
  else if goEndsWith e.name semanticsJsonSuf then
    match unmarshalGoValue e.data with
    | some v =>
      .ok { pkg with libraries := findOrCreateLibrary pkg.libraries (filepathDir e.name) (setLibSem v) }
    | none => .error .badSemantics
  else if goContainsChar e.name '/' then
    if isLibraryDirectory (goSplitFirst e.name) then
      .ok { pkg with libraries := findOrCreateLibrary pkg.libraries (goSplitFirst e.name) (addLibFile (goTrimPre e.name (goSplitFirst e.name ++ slashStr)) e.data) }
    else .ok pkg
  else .ok pkg

/-- The error `LoadH5PPackage` surfaces: the failing entry's name wrapping the
underlying unmarshal error (`failed to process file %s: %w`). -/
structure LoadError where
  fileName : GoStr
  cause : JsonError
deriving DecidableEq

/-- The entry loop of `LoadH5PPackage`: process entries in order, aborting with
a wrapped error at the first failure. -/
def processZipEntries (pkg : H5PPackage) : List ZipEntry → Except LoadError H5PPackage
  | [] => .ok pkg
  | e :: rest =>
    match processZipFile pkg e with
    | .ok p => processZipEntries p rest
    | .error c => .error ⟨e.name, c⟩

/-- `LoadH5PPackage`: read an archive back into a fresh package. -/
def LoadH5PPackage (entries : List ZipEntry) : Except LoadError H5PPackage :=
  processZipEntries NewH5PPackage entries

/-! ## Validation (builder.go `QuestionSet.Validate`) -/

/-- Which question-set validation rule an error message reports. -/
inductive QSValidationError where
  | noQuestions
  | passPercentageOutOfRange
  | feedbackRangeInvalid (i : Nat)
deriving DecidableEq

/-- The `for i, feedback := range qs.OverallFeedback` loop of `Validate`:
return an error at the first range with `From > To`. -/
def firstFeedbackError : List FeedbackRange → Nat → Option QSValidationError
  | [], _ => none
  | r :: rest, i =>
    if r.rangeFrom > r.rangeTo then some (.feedbackRangeInvalid i)
    else firstFeedbackError rest (i + 1)

/-- `QuestionSet.Validate` (builder.go): returns at the first violated rule,
checking the question count, then the pass percentage, then each feedback
range in order. -/
def QuestionSet.validate (qs : QuestionSet) : Option QSValidationError :=
  if qs.questions.length = 0 then some .noQuestions
  else if qs.passPercentage < 0 ∨ qs.passPercentage > 100 then
    some .passPercentageOutOfRange
  else firstFeedbackError qs.overallFeedback 0

/-- All feedback-range rules violated by a list of ranges, with their indices
(spec-side definition, used to state the validation-completeness claim). -/
def badFeedbackRules : List FeedbackRange → Nat → List QSValidationError
  | [], _ => []
  | r :: rest, i =>
    (if r.rangeFrom > r.rangeTo then [QSValidationError.feedbackRangeInvalid i] else []) ++
    badFeedbackRules rest (i + 1)

/-- All rules a question set violates, in the order `Validate` checks them
(spec-side definition for the validation-completeness claim). -/
def QuestionSet.violatedRules (qs : QuestionSet) : List QSValidationError :=
  (if qs.questions.length = 0 then [QSValidationError.noQuestions] else []) ++
  (if qs.passPercentage < 0 ∨ qs.passPercentage > 100 then
    [QSValidationError.passPercentageOutOfRange] else []) ++
  badFeedbackRules qs.overallFeedback 0

/-- The collection of rules one `Validate` call reports: the rule of its error
value, if any (Go returns a single `error`). -/
def QuestionSet.reportedRules (qs : QuestionSet) : List QSValidationError :=
  qs.validate.toList

/-! ## Validation (schemas/multichoice_types.go `MultiChoiceParams.Validate`) -/

namespace Schemas

/-- `schemas.FeedbackRange` (distinct from the question-set one). -/
structure SchFeedbackRange where
  rangeFrom : Int
  rangeTo : Int
  feedback : String
deriving DecidableEq

/-- `schemas.OverallFeedback`. -/
structure OverallFeedback where
  overallFeedback : List SchFeedbackRange
deriving DecidableEq

/-- `schemas.MediaGroup`. -/
structure MediaGroup where
  mediaType : String
  disableImageZooming : Bool
deriving DecidableEq

/-- `schemas.AnswerTipsAndFeedback`. -/
structure AnswerTipsAndFeedback where
  tip : String
  chosenFeedback : String
  notChosenFeedback : String
deriving DecidableEq

/-- `schemas.AnswerOption`. -/
structure AnswerOption where
  text : String
  correct : Bool
  tipsAndFeedback : Option AnswerTipsAndFeedback
deriving DecidableEq

/-- `schemas.Behaviour`; the Go field `Type` is `bType` here (`type` is a
keyword). -/
structure Behaviour where
  enableRetry : Bool
  enableSolutionsButton : Bool
  enableCheckButton : Bool
  bType : String
  singlePoint : Bool
  randomAnswers : Bool
  passPercentage : Int
  showScorePoints : Bool
deriving DecidableEq

/-- `schemas.UITranslations`. -/
structure UITranslations where
  checkAnswerButton : String
  showSolutionButton : String
  tryAgainButton : String
  tipsLabel : String
  scoreBarLabel : String
  tipAvailable : String
  feedbackAvailable : String
  readFeedback : String
  wrongAnswer : String
  correctAnswer : String
deriving DecidableEq

/-- `schemas.MultiChoiceParams`. -/
structure MultiChoiceParams where
  media : Option MediaGroup
  question : String
  answers : List AnswerOption
  overallFeedback : Option OverallFeedback
  behaviour : Option Behaviour
  ui : Option UITranslations
deriving DecidableEq

/-- Which multi-choice validation rule an error message reports. -/
inductive MCValidationError where
  | emptyQuestion
  | noAnswers
  | emptyAnswerText
  | noCorrectAnswer
  | invalidQuestionType (t : String)
  | passPercentageOutOfRange
deriving DecidableEq

/-- The answer loop of `MultiChoiceParams.Validate`: abort at the first empty
answer text, otherwise count the correct answers. -/
def checkAnswers : List AnswerOption → Nat → Except MCValidationError Nat
  | [], count => .ok count
  | a :: rest, count =>
    if a.text = "" then .error .emptyAnswerText
    else checkAnswers rest (if a.correct then count + 1 else count)

/-- `MultiChoiceParams.Validate`: fail-fast checks in source order — question
text, answer count, answer texts, correct count, behaviour type, behaviour
pass percentage. -/
def MultiChoiceParams.validate (p : MultiChoiceParams) : Option MCValidationError :=
  if p.question = "" then some .emptyQuestion
  else if p.answers.length < 1 then some .noAnswers
  else
    match checkAnswers p.answers 0 with
    | .error e => some e
    | .ok correctCount =>
      if correctCount = 0 then some .noCorrectAnswer
      else
        match p.behaviour with
        | none => none
        | some b =>
          if b.bType ≠ "" ∧ ¬(b.bType = "auto" ∨ b.bType = "multi" ∨ b.bType = "single") then
            some (.invalidQuestionType b.bType)
          else if b.passPercentage < 0 ∨ b.passPercentage > 100 then
            some .passPercentageOutOfRange
          else none

/-- All rules a `MultiChoiceParams` violates, in the order `Validate` checks
them (spec-side definition for the validation-completeness claim). -/
def MultiChoiceParams.violatedRules (p : MultiChoiceParams) : List MCValidationError :=
  (if p.question = "" then [MCValidationError.emptyQuestion] else []) ++
  (if p.answers.length < 1 then [MCValidationError.noAnswers] else []) ++
  (p.answers.filter (fun a => a.text = "")).map (fun _ => MCValidationError.emptyAnswerText) ++
  (if (p.answers.filter (fun a => a.correct)).length = 0 then
    [MCValidationError.noCorrectAnswer] else []) ++
  (match p.behaviour with
   | none => []
   | some b =>
     (if b.bType ≠ "" ∧ ¬(b.bType = "auto" ∨ b.bType = "multi" ∨ b.bType = "single") then
       [MCValidationError.invalidQuestionType b.bType] else []) ++
     (if b.passPercentage < 0 ∨ b.passPercentage > 100 then
       [MCValidationError.passPercentageOutOfRange] else []))

/-- The collection of rules one `Validate` call reports. -/
def MultiChoiceParams.reportedRules (p : MultiChoiceParams) : List MCValidationError :=
  p.validate.toList

end Schemas

/-! ## The polymorphic Field codec (semantics/types.go) -/

namespace Semantics

/-- `semantics.SelectOption`. -/
structure SelectOption where
  value : String
  label : String
deriving DecidableEq

/-- The dynamic value held by the polymorphic `Options interface` field of a
`Field`: a generic `[]interface` produced by JSON unmarshalling, a directly
assigned `[]string` or `[]SelectOption`, or any other non-nil value. -/
inductive OptionsValue where
  | generic (xs : List Json)
  | stringSlice (xs : List String)
  | selectSlice (xs : List SelectOption)
  | otherValue (v : Json)
deriving DecidableEq

/-- `semantics.ShowRule`. -/
structure ShowRule where
  ruleField : String
  equals : Option Json
deriving DecidableEq

/-- `semantics.ShowWhen`. -/
structure ShowWhen where
  rules : List ShowRule
deriving DecidableEq

/-- `semantics.Field`.  The Go field `Type` is `fieldType` here (`type` is a
keyword) and `Default` is `defaultVal`.  The recursive group/list child
attributes (`Fields`, `Field`) are omitted: they are never consulted by the
options accessors this development reasons about. -/
structure Field where
  name : String
  fieldType : String
  label : String
  description : String
  importance : String
  optional : Bool
  defaultVal : Option Json
  common : Bool
  widget : String
  placeholder : String
  expanded : Bool
  entity : String
  min : Int
  max : Int
  defaultNum : Int
  options : Option OptionsValue
  minValue : Int
  maxValue : Int
  step : Int
  unit : String
  maxLength : Int
  tags : List String
  showWhen : Option ShowWhen
deriving DecidableEq

/-- The element loop of `GetLibraryOptions` on a generic `[]interface` slice:
collect the strings, return nil on the first non-string element. -/
def collectLibraryStrings : List Json → Option (List String)
  | [] => some []
  | x :: rest =>
    match x with
    | .str s =>
      match collectLibraryStrings rest with
      | some r => some (s :: r)
      | none => none
    | _ => none

/-- `Field.GetLibraryOptions`: the options as a `[]string`, or nil (`none`)
when they are not in that shape. -/
def Field.getLibraryOptions (f : Field) : Option (List String) :=
  match f.options with
  | none => none
  | some (.generic xs) => collectLibraryStrings xs
  | some (.stringSlice xs) => some xs
  | some _ => none

def valueKey : String := "value"

def labelKey : String := "label"

def emptyString : String := ""

/-- Reading the `value`/`label` key of one option object: an absent key leaves
the zero value, a present non-string key aborts the whole decode. -/
def lookupStringKey (fs : List (String × Json)) (k : String) : Option String :=
  match fs.lookup k with
  | none => some emptyString
  | some (.str s) => some s
  | some _ => none

/-- One element of the `GetSelectOptions` loop: the element must be an object
whose present `value`/`label` keys are strings. -/
def decodeSelectElem (x : Json) : Option SelectOption :=
  match x with
  | .obj fs =>
    match lookupStringKey fs valueKey with
    | none => none
    | some v =>
      match lookupStringKey fs labelKey with
      | none => none
      | some l => some { value := v, label := l }
  | _ => none

/-- The element loop of `GetSelectOptions` on a generic `[]interface` slice:
decode each element, return nil on the first non-conforming one. -/
def collectSelectOptions : List Json → Option (List SelectOption)
  | [] => some []
  | x :: rest =>
    match decodeSelectElem x with
    | some o =>
      match collectSelectOptions rest with
      | some r => some (o :: r)
      | none => none
    | none => none

/-- `Field.GetSelectOptions`: the options as a `[]SelectOption`, or nil
(`none`) when they are not in that shape. -/
def Field.getSelectOptions (f : Field) : Option (List SelectOption) :=
  match f.options with
  | none => none
  | some (.generic xs) => collectSelectOptions xs
  | some (.selectSlice xs) => some xs
  | some _ => none

/-- `Field.SetLibraryOptions`. -/
def Field.setLibraryOptions (f : Field) (options : List String) : Field :=
  { f with options := some (.stringSlice options) }

/-- `Field.SetSelectOptions`. -/
def Field.setSelectOptions (f : Field) (options : List SelectOption) : Field :=
  { f with options := some (.selectSlice options) }

end Semantics

/-- Whether a JSON value is an object. -/
def Json.isObj : Json → Bool
  | .obj _ => true
  | _ => false

/-- Whether a JSON value is a string. -/
def Json.isStr : Json → Bool
  | .str _ => true
  | _ => false

/-! ## Spec-side claim statements -/

/-- Two file maps agree: same relative paths mapped to byte-identical data. -/
@[reducible]
def filesAgree (a b : List (GoStr × ZipData)) : Prop :=
  (∀ fd ∈ a, b.lookup fd.1 = some fd.2) ∧ (∀ fd ∈ b, a.lookup fd.1 = some fd.2)

/-- A library is reproduced inside a package: some library there has the same
machine name, definition, schema, and file bytes under the same paths. -/
@[reducible]
def libraryReproducedIn (pkg' : H5PPackage) (lib : Library) : Prop :=
  ∃ lib' ∈ pkg'.libraries,
    lib'.machineName = lib.machineName ∧ lib'.definition = lib.definition ∧
    lib'.semantics = lib.semantics ∧ filesAgree lib'.files lib.files

/-- The round-trip property exactly as the spec claims it of every package:
writing then loading yields a package with structurally equal package
definition and content payload, in which every library is reproduced. -/
@[reducible]
def roundTripFaithful (pkg : H5PPackage) : Prop :=
  ∃ pkg', LoadH5PPackage (CreateZipFile pkg) = Except.ok pkg' ∧
    pkg'.packageDefinition = pkg.packageDefinition ∧
    pkg'.content = pkg.content ∧
    ∀ lib ∈ pkg.libraries, libraryReproducedIn pkg' lib

/-- A machine name the reader's conventions can recover: it carries the
`"H5P."` token and contains no slash. -/
@[reducible]
def goodMachineName (mn : GoStr) : Prop :=
  isLibraryDirectory mn = true ∧ '/' ∉ mn

/-- A relative file path that cannot collide with the reader's
`library.json`/`semantics.json` suffix dispatch. -/
@[reducible]
def goodFilePath (p : GoStr) : Prop :=
  goEndsWith p libraryJsonSuf = false ∧ p ≠ libraryJsonFile ∧
  goEndsWith p semanticsJsonSuf = false ∧ p ≠ semanticsJsonFile

/-- A library the writer/reader pair reproduces exactly: recoverable machine
name, schema not the bare JSON null, at least one emitted entry, and file
paths that are unique and dispatch-safe. -/
@[reducible]
def wellFormedLibrary (lib : Library) : Prop :=
  goodMachineName lib.machineName ∧
  lib.semantics ≠ some Json.null ∧
  (lib.definition ≠ none ∨ lib.semantics ≠ none ∨ lib.files ≠ []) ∧
  (lib.files.map Prod.fst).Nodup ∧
  ∀ fd ∈ lib.files, goodFilePath fd.1

/-- A package the writer/reader pair reproduces exactly. -/
@[reducible]
def wellFormedPackage (pkg : H5PPackage) : Prop :=
  (pkg.libraries.map Library.machineName).Nodup ∧
  (∀ lib ∈ pkg.libraries, wellFormedLibrary lib) ∧
  (∀ c, pkg.content = some c → normContent c = c)

/-- Claim C2's contract, stated from the spec: a validation call reports every
violated rule, not only the first one. -/
@[reducible]
def reportsAllViolations (qs : QuestionSet) : Prop :=
  ∀ r ∈ qs.violatedRules, r ∈ qs.reportedRules

/-- Claim C2's contract for the multi-choice validator. -/
@[reducible]
def mcReportsAllViolations (p : Schemas.MultiChoiceParams) : Prop :=
  ∀ r ∈ p.violatedRules, r ∈ p.reportedRules

/-- The archive-entry names whose JSON payload is structurally required. -/
@[reducible]
def structurallyRequiredName (n : GoStr) : Prop :=
  n = h5pJsonName ∨ n = contentJsonName ∨
  goEndsWith n libraryJsonSuf = true ∨ goEndsWith n semanticsJsonSuf = true

/-! ## Concrete instances used by counterexamples and witnesses -/

def libDefA : LibraryDefinition :=
  { title := "Quiz", machineNameDef := "H5P.Quiz", majorVersion := 1,
    minorVersion := 16, patchVersion := 0, runnable := true, author := "",
    license := "", description := "", preloadedJs := [], preloadedCss := [],
    dropLibraryCss := [], dependencies := [] }

/-- A machine name without the `"H5P."` token. -/
def nonH5PName : GoStr := "Lib".toList

def aTxtPath : GoStr := "a.txt".toList

/-- A library whose machine name does not carry the naming-convention token. -/
def badLib : Library :=
  { definition := some libDefA, semantics := none, machineName := nonH5PName,
    files := [(aTxtPath, ZipData.raw [1])] }

def emptyContent : Content := { questionSet := none, params := none }

/-- A package with non-null content and one library whose machine name does
not carry the naming-convention token. -/
def badPkg : H5PPackage :=
  { packageDefinition := none, content := some emptyContent, libraries := [badLib] }

/-- What loading `badPkg`'s archive actually produces: the library definition
survives but the library's file is silently dropped. -/
def loadedBadPkg : H5PPackage :=
  { packageDefinition := none, content := some emptyContent,
    libraries := [{ definition := some libDefA, semantics := none,
                    machineName := nonH5PName, files := [] }] }

def goodMachine : GoStr := "H5P.Quiz".toList

def jsPath : GoStr := "a.js".toList

def cssPath : GoStr := "css/style.css".toList

def semToken : String := "sem"

def goodLib : Library :=
  { definition := some libDefA, semantics := some (Json.str semToken),
    machineName := goodMachine,
    files := [(jsPath, ZipData.raw [1, 2]), (cssPath, ZipData.raw [3])] }

def pkgDefA : PackageDefinition :=
  { title := "T", language := "en", mainLibrary := "H5P.Quiz", embedTypes := [],
    license := "", defaultLanguage := "", author := "",
    preloadedDependencies := [], editorDependencies := [] }

def contentA : Content := { questionSet := none, params := some (Json.num 5) }

def goodPkg : H5PPackage :=
  { packageDefinition := some pkgDefA, content := some contentA,
    libraries := [goodLib] }

def fooSemName : GoStr := "Foo/semantics.json".toList

/-- A well-formed `semantics.json` entry under a top-level directory that does
not match the library naming convention. -/
def eFooSem : ZipEntry := { name := fooSemName, data := ZipData.jsonVal (Json.str semToken) }

def fooName : GoStr := "Foo".toList

/-- What loading the one-entry archive `[eFooSem]` actually produces. -/
def fooLoadedPkg : H5PPackage :=
  { packageDefinition := none, content := none,
    libraries := [{ definition := none, semantics := some (Json.str semToken),
                    machineName := fooName, files := [] }] }

def fooLibJsonName : GoStr := "Foo/library.json".toList

/-- A relative file path escaping the library root. -/
def dotDotPath : GoStr := "../evil.js".toList

def travLib : Library :=
  { definition := none, semantics := none, machineName := goodMachine,
    files := [(dotDotPath, ZipData.raw [7])] }

def travPkg : H5PPackage :=
  { packageDefinition := none, content := none, libraries := [travLib] }

def emptyQuestionSet : QuestionSet :=
  { progressType := "", passPercentage := 0, backgroundImage := none,
    questions := [], showIntroPage := false, startButtonText := "",
    introduction := "", title := "", showResultPage := false, message := "",
    solutionButtonText := "", overallFeedback := [] }

/-- A question set violating two rules at once: no questions and an
out-of-range pass percentage. -/
def qsBothBad : QuestionSet := { emptyQuestionSet with passPercentage := 150 }

def answerWrong : Schemas.AnswerOption :=
  { text := "A", correct := false, tipsAndFeedback := none }

def answerRight : Schemas.AnswerOption :=
  { text := "A", correct := true, tipsAndFeedback := none }

def behaviourBad : Schemas.Behaviour :=
  { enableRetry := false, enableSolutionsButton := false,
    enableCheckButton := false, bType := "", singlePoint := false,
    randomAnswers := false, passPercentage := 150, showScorePoints := false }

/-- Multi-choice params violating two rules at once: no correct answer and a
pass percentage above 100. -/
def mcBothBad : Schemas.MultiChoiceParams :=
  { media := none, question := "Q", answers := [answerWrong],
    overallFeedback := none, behaviour := some behaviourBad, ui := none }

def oneQuestion : Question := { library := "L", params := none }

def qsOneQuestion : QuestionSet := { emptyQuestionSet with questions := [oneQuestion] }

/-- Valid multi-choice params with a given behaviour pass percentage. -/
def mcWithPP (pp : Int) : Schemas.MultiChoiceParams :=
  { media := none, question := "Q", answers := [answerRight],
    overallFeedback := none,
    behaviour := some { behaviourBad with passPercentage := pp }, ui := none }

def emptyField : Semantics.Field :=
  { name := "", fieldType := "", label := "", description := "",
    importance := "", optional := false, defaultVal := none, common := false,
    widget := "", placeholder := "", expanded := false, entity := "", min := 0,
    max := 0, defaultNum := 0, options := none, minValue := 0, maxValue := 0,
    step := 0, unit := "", maxLength := 0, tags := [], showWhen := none }

def selectTypeName : String := "select"

def libraryTypeName : String := "library"

def parisStr : String := "Paris"

def libOptionStr : String := "Quiz.MultiChoice 1.16"

/-- A conforming select-shaped option element. -/
def selectShapedElem : Json :=
  Json.obj [(Semantics.valueKey, Json.str parisStr), (Semantics.labelKey, Json.str parisStr)]

/-- A select-type field with select-shaped (value/label object) options. -/
def fieldSelectShaped : Semantics.Field :=
  { emptyField with fieldType := selectTypeName,
                    options := some (Semantics.OptionsValue.generic [selectShapedElem]) }

/-- A library-type field with library-shaped (plain string) options. -/
def fieldLibraryShaped : Semantics.Field :=
  { emptyField with fieldType := libraryTypeName,
                    options := some (Semantics.OptionsValue.generic [Json.str libOptionStr]) }

/-- A field with mixed-type options (a string and a number). -/
def fieldMixed : Semantics.Field :=
  { emptyField with options := some (Semantics.OptionsValue.generic [Json.str libOptionStr, Json.num 3]) }

/-- A field whose option object has a non-string `value`. -/
def fieldBadValue : Semantics.Field :=
  { emptyField with options := some (Semantics.OptionsValue.generic [Json.obj [(Semantics.valueKey, Json.num 3)]]) }

/-- A field whose options payload is the empty list. -/
def fieldEmptyOptions : Semantics.Field :=
  { emptyField with options := some (Semantics.OptionsValue.generic []) }

/-- A feedback range with empty text, for concrete witnesses. -/
def fb (a b : Int) : FeedbackRange := { rangeFrom := a, rangeTo := b, text := "" }

/-- An archive entry that matches none of the reader's conventions. -/
def eReadme : ZipEntry := { name := "images/pic.png".toList, data := ZipData.raw [9] }

def dotDotStr : GoStr := "../".toList

/-! ## Helper lemmas about the Go string operations -/

theorem goEndsWith_append_self (a b : GoStr) : goEndsWith (a ++ b) b = true := by
  rw [goEndsWith, List.isSuffixOf_iff_suffix]
  exact List.suffix_append a b

theorem suffix_of_suffix_of_length_le {l₁ l₂ l : GoStr}
    (h₁ : l₁ <:+ l) (h₂ : l₂ <:+ l) (hlen : l₁.length ≤ l₂.length) : l₁ <:+ l₂ := by
  obtain ⟨t₁, ht₁⟩ := h₁
  obtain ⟨t₂, ht₂⟩ := h₂
  have heq : t₁ ++ l₁ = t₂ ++ l₂ := ht₁.trans ht₂.symm
  rcases List.append_eq_append_iff.mp heq with ⟨a', _, hl₁⟩ | ⟨c', _, hl₂⟩
  · have hlen' : a'.length = 0 := by
      have hl := congrArg List.length hl₁
      simp only [List.length_append] at hl
      omega
    rw [List.eq_nil_of_length_eq_zero hlen'] at hl₁
    simpa using hl₁ ▸ List.suffix_refl l₂
  · exact hl₂ ▸ List.suffix_append c' l₁

theorem goEndsWith_true_iff (s t : GoStr) : goEndsWith s t = true ↔ t <:+ s := by
  rw [goEndsWith]
  exact List.isSuffixOf_iff_suffix

theorem goEndsWith_false_iff (s t : GoStr) : goEndsWith s t = false ↔ ¬ t <:+ s := by
  rw [← goEndsWith_true_iff]
  cases goEndsWith s t <;> simp

theorem goEndsWith_append_false (a s t : GoStr)
    (h1 : goEndsWith t s = false) (h2 : goEndsWith s t = false) :
    goEndsWith (a ++ s) t = false := by
  rw [goEndsWith_false_iff] at h1 h2 ⊢
  intro ht
  have hs : s <:+ a ++ s := List.suffix_append a s
  rcases le_total s.length t.length with hle | hle
  · exact h1 (suffix_of_suffix_of_length_le hs ht hle)
  · exact h2 (suffix_of_suffix_of_length_le ht hs hle)

theorem goEndsWith_pathConcat_false (mn p f : GoStr) (hf : '/' ∉ f)
    (hp1 : goEndsWith p ('/' :: f) = false) (hp2 : p ≠ f) :
    goEndsWith (pathConcat mn p) ('/' :: f) = false := by
  rw [goEndsWith_false_iff] at hp1 ⊢
  intro ht
  have hp : '/' :: p <:+ pathConcat mn p := List.suffix_append mn ('/' :: p)
  rcases le_total (('/' :: f).length) (('/' :: p).length) with hle | hle
  · have hft : '/' :: f <:+ '/' :: p := suffix_of_suffix_of_length_le ht hp hle
    rcases List.suffix_cons_iff.mp hft with hfp | hfp
    · exact hp2 (List.tail_eq_of_cons_eq hfp).symm
    · exact hp1 hfp
  · have hpf : '/' :: p <:+ '/' :: f := suffix_of_suffix_of_length_le hp ht hle
    rcases List.suffix_cons_iff.mp hpf with hfp | hfp
    · exact hp2 (List.tail_eq_of_cons_eq hfp)
    · exact hf (hfp.mem (List.mem_cons_self '/' p))

theorem takeWhile_append_cons (a b : GoStr) (ha : '/' ∉ a) :
    (a ++ '/' :: b).takeWhile (fun c => c != '/') = a := by
  induction a with
  | nil => simp [List.takeWhile_cons]
  | cons x xs ih =>
    have hx : x ≠ '/' := fun h => ha (h ▸ List.mem_cons_self x xs)
    have hxs : '/' ∉ xs := fun h => ha (List.mem_cons_of_mem x h)
    simp only [List.cons_append, List.takeWhile_cons, bne_iff_ne, ne_eq, hx,
      not_false_eq_true, if_true, ih hxs]

theorem goSplitFirst_pathConcat (a b : GoStr) (ha : '/' ∉ a) :
    goSplitFirst (pathConcat a b) = a :=
  takeWhile_append_cons a b ha

theorem dropWhile_append_all {p : Char → Bool} (a b : GoStr) (ha : ∀ c ∈ a, p c = true) :
    (a ++ b).dropWhile p = b.dropWhile p := by
  induction a with
  | nil => rfl
  | cons x xs ih =>
    simp only [List.cons_append, List.dropWhile_cons, ha x (List.mem_cons_self x xs), if_true]
    exact ih (fun c hc => ha c (List.mem_cons_of_mem x hc))

theorem filepathDir_pathConcat (a b : GoStr) (hb : '/' ∉ b) :
    filepathDir (pathConcat a b) = a := by
  have hcont : (pathConcat a b).contains '/' = true := by
    simp [pathConcat, List.contains, List.elem_iff]
  rw [filepathDir, if_pos hcont, pathConcat, List.reverse_append, List.reverse_cons,
    List.append_assoc, List.singleton_append]
  rw [dropWhile_append_all b.reverse ('/' :: a.reverse)
        (fun c hc => by
          simp only [bne_iff_ne, ne_eq, decide_eq_true_eq]
          exact fun h => hb (h ▸ List.mem_reverse.mp hc))]
  simp [List.dropWhile_cons]

theorem goTrimPre_pathConcat (a b : GoStr) :
    goTrimPre (pathConcat a b) (a ++ slashStr) = b := by
  have hpc : pathConcat a b = (a ++ slashStr) ++ b := by
    simp [pathConcat, slashStr]
  rw [goTrimPre, hpc, if_pos]
  · exact List.drop_left (a ++ slashStr) b
  · rw [ List.isPrefixOf_iff_prefix]
    exact ⟨b, rfl⟩

theorem isLibraryDirectory_shape (mn : GoStr) (h : isLibraryDirectory mn = true) :
    ∃ r, mn = 'H' :: '5' :: 'P' :: '.' :: r := by
  rw [isLibraryDirectory, goStartsWith, List.isPrefixOf_iff_prefix] at h
  obtain ⟨r, hr⟩ := h
  exact ⟨r, hr.symm⟩

theorem h5pName_append_ne (mn tail : GoStr) (h : isLibraryDirectory mn = true) :
    mn ++ tail ≠ h5pJsonName ∧ mn ++ tail ≠ contentJsonName := by
  obtain ⟨r, hr⟩ := isLibraryDirectory_shape mn h
  subst hr
  constructor <;> · intro hcon; injection hcon with h1; simp at h1

theorem pathConcat_ne_h5pJsonName (a b : GoStr) : pathConcat a b ≠ h5pJsonName := by
  intro h
  have hm : '/' ∈ pathConcat a b := by simp [pathConcat]
  rw [h] at hm
  simp [h5pJsonName] at hm

theorem writeLibraryToZip_name_shape (l : Library) (e : ZipEntry)
    (he : e ∈ writeLibraryToZip l) : ∃ f, e.name = pathConcat l.machineName f := by
  rw [writeLibraryToZip] at he
  rcases List.mem_append.mp he with he' | hfs
  · rcases List.mem_append.mp he' with hd | hs
    · cases hdef : l.definition with
      | none => rw [hdef] at hd; simp at hd
      | some d => rw [hdef] at hd; simp at hd; exact ⟨libraryJsonFile, by rw [hd]⟩
    · cases hsem : l.semantics with
      | none => rw [hsem] at hs; simp at hs
      | some j => rw [hsem] at hs; simp at hs; exact ⟨semanticsJsonFile, by rw [hs]⟩
  · obtain ⟨fd, _, hfd⟩ := List.mem_map.mp hfs
    exact ⟨fd.1, by rw [← hfd]⟩

/-! ## Helper lemmas about the archive reader -/

theorem processZipEntries_append (pkg : H5PPackage) (xs ys : List ZipEntry) :
    processZipEntries pkg (xs ++ ys) =
      match processZipEntries pkg xs with
      | .ok p => processZipEntries p ys
      | .error e => .error e := by
  induction xs generalizing pkg with
  | nil => rfl
  | cons x rest ih =>
    rw [List.cons_append, processZipEntries, processZipEntries]
    cases processZipFile pkg x with
    | ok p => exact ih p
    | error c => rfl

theorem findOrCreateLibrary_absent (libs : List Library) (mn : GoStr) (f : Library → Library)
    (h : ∀ l ∈ libs, l.machineName ≠ mn) :
    findOrCreateLibrary libs mn f =
      libs ++ [f { definition := none, semantics := none, machineName := mn, files := [] }] := by
  induction libs with
  | nil => rfl
  | cons l rest ih =>
    rw [findOrCreateLibrary, if_neg (h l (List.mem_cons_self l rest))]
    rw [ih (fun l' hl' => h l' (List.mem_cons_of_mem l hl'))]
    rfl

theorem findOrCreateLibrary_last (libs : List Library) (cur : Library) (mn : GoStr)
    (f : Library → Library) (h : ∀ l ∈ libs, l.machineName ≠ mn)
    (hcur : cur.machineName = mn) :
    findOrCreateLibrary (libs ++ [cur]) mn f = libs ++ [f cur] := by
  induction libs with
  | nil => simp [findOrCreateLibrary, hcur]
  | cons l rest ih =>
    rw [List.cons_append, findOrCreateLibrary, if_neg (h l (List.mem_cons_self l rest))]
    rw [ih (fun l' hl' => h l' (List.mem_cons_of_mem l hl'))]
    rfl

theorem goMapInsert_absent (m : List (GoStr × ZipData)) (k : GoStr) (v : ZipData)
    (h : k ∉ m.map Prod.fst) :
    goMapInsert m k v = m ++ [(k, v)] := by
  induction m with
  | nil => rfl
  | cons kv rest ih =>
    simp only [List.map_cons, List.mem_cons, not_or] at h
    rw [goMapInsert, if_neg (Ne.symm h.1), ih h.2]
    rfl

theorem processZipFile_libJson_entry (pkg : H5PPackage) (mn : GoStr) (d : LibraryDefinition)
    (hmn : isLibraryDirectory mn = true) :
    processZipFile pkg ⟨pathConcat mn libraryJsonFile, ZipData.libDefJson d⟩ =
      Except.ok { pkg with libraries := findOrCreateLibrary pkg.libraries mn (setLibDef d) } := by
  have h1 := (h5pName_append_ne mn ('/' :: libraryJsonFile) hmn).1
  have h2 := (h5pName_append_ne mn ('/' :: libraryJsonFile) hmn).2
  have h3 : goEndsWith (mn ++ '/' :: libraryJsonFile) ('/' :: libraryJsonFile) = true :=
    goEndsWith_append_self mn ('/' :: libraryJsonFile)
  have h6 : filepathDir (mn ++ '/' :: libraryJsonFile) = mn :=
    filepathDir_pathConcat mn libraryJsonFile (by decide)
  simp only [processZipFile, pathConcat, libraryJsonSuf, h1, h2, h3, h6,
    unmarshalLibraryDefinition, if_false, if_true]

theorem processZipFile_semJson_entry (pkg : H5PPackage) (mn : GoStr) (j : Json)
    (hmn : isLibraryDirectory mn = true) (hj : j ≠ Json.null) :
    processZipFile pkg ⟨pathConcat mn semanticsJsonFile, ZipData.jsonVal j⟩ =
      Except.ok { pkg with libraries := findOrCreateLibrary pkg.libraries mn (setLibSem (some j)) } := by
  have h1 := (h5pName_append_ne mn ('/' :: semanticsJsonFile) hmn).1
  have h2 := (h5pName_append_ne mn ('/' :: semanticsJsonFile) hmn).2
  have h3 : goEndsWith (mn ++ '/' :: semanticsJsonFile) ('/' :: libraryJsonFile) = false :=
    goEndsWith_append_false mn ('/' :: semanticsJsonFile) ('/' :: libraryJsonFile)
      (by decide) (by decide)
  have h4 : goEndsWith (mn ++ '/' :: semanticsJsonFile) ('/' :: semanticsJsonFile) = true :=
    goEndsWith_append_self mn ('/' :: semanticsJsonFile)
  have h6 : filepathDir (mn ++ '/' :: semanticsJsonFile) = mn :=
    filepathDir_pathConcat mn semanticsJsonFile (by decide)
  have hnorm : goInterfaceNorm (some j) = some j := by
    cases j <;> first
      | rfl
      | exact absurd rfl hj
  simp only [processZipFile, pathConcat, libraryJsonSuf, semanticsJsonSuf, h1, h2, h3, h4, h6,
    unmarshalGoValue, hnorm, Bool.false_eq_true, if_false, if_true]

theorem processZipFile_file_entry (pkg : H5PPackage) (mn p : GoStr) (d : ZipData)
    (hmn : goodMachineName mn) (hp : goodFilePath p) :
    processZipFile pkg ⟨pathConcat mn p, d⟩ =
      Except.ok { pkg with libraries := findOrCreateLibrary pkg.libraries mn (addLibFile p d) } := by
  obtain ⟨hmn1, hmn2⟩ := hmn
  obtain ⟨hp1, hp2, hp3, hp4⟩ := hp
  have h1 := (h5pName_append_ne mn ('/' :: p) hmn1).1
  have h2 := (h5pName_append_ne mn ('/' :: p) hmn1).2
  have h3 : goEndsWith (mn ++ '/' :: p) ('/' :: libraryJsonFile) = false :=
    goEndsWith_pathConcat_false mn p libraryJsonFile (by decide) hp1 hp2
  have h4 : goEndsWith (mn ++ '/' :: p) ('/' :: semanticsJsonFile) = false :=
    goEndsWith_pathConcat_false mn p semanticsJsonFile (by decide) hp3 hp4
  have h5 : goContainsChar (mn ++ '/' :: p) '/' = true := by
    simp [goContainsChar, List.contains, List.elem_iff]
  have h6 : goSplitFirst (mn ++ '/' :: p) = mn := goSplitFirst_pathConcat mn p hmn2
  have h7 : goTrimPre (mn ++ '/' :: p) (mn ++ slashStr) = p := goTrimPre_pathConcat mn p
  simp only [processZipFile, pathConcat, libraryJsonSuf, semanticsJsonSuf, h1, h2, h3, h4, h5,
    h6, h7, hmn1, Bool.false_eq_true, if_false, if_true]

theorem processZipEntries_files (pd : Option PackageDefinition) (c : Option Content)
    (libs : List Library) (cur : Library) (fs : List (GoStr × ZipData))
    (hmn : goodMachineName cur.machineName)
    (hfree : ∀ l ∈ libs, l.machineName ≠ cur.machineName)
    (hpaths : ∀ fd ∈ fs, goodFilePath fd.1)
    (hdisj : ∀ fd ∈ fs, fd.1 ∉ cur.files.map Prod.fst)
    (hnodup : (fs.map Prod.fst).Nodup) :
    processZipEntries ⟨pd, c, libs ++ [cur]⟩
        (fs.map (fun fd => ⟨pathConcat cur.machineName fd.1, fd.2⟩)) =
      Except.ok ⟨pd, c, libs ++ [{ cur with files := cur.files ++ fs }]⟩ := by
  induction fs generalizing cur with
  | nil => simp [processZipEntries]
  | cons fd rest ih =>
    have hstep := processZipFile_file_entry ⟨pd, c, libs ++ [cur]⟩ cur.machineName fd.1 fd.2 hmn
      (hpaths fd (List.mem_cons_self fd rest))
    have hfoc : findOrCreateLibrary (libs ++ [cur]) cur.machineName (addLibFile fd.1 fd.2) =
        libs ++ [{ cur with files := cur.files ++ [(fd.1, fd.2)] }] := by
      rw [findOrCreateLibrary_last libs cur cur.machineName _ hfree rfl]
      rw [addLibFile, goMapInsert_absent cur.files fd.1 fd.2
        (hdisj fd (List.mem_cons_self fd rest))]
    simp only [List.map_cons, processZipEntries, hstep, hfoc]
    have hrest := ih { cur with files := cur.files ++ [(fd.1, fd.2)] } hmn hfree
      (fun fd' hfd' => hpaths fd' (List.mem_cons_of_mem fd hfd'))
      (by
        intro fd' hfd'
        simp only [List.map_append, List.mem_append, List.map_cons, List.map_nil,
          List.mem_singleton, not_or]
        refine ⟨hdisj fd' (List.mem_cons_of_mem fd hfd'), ?_⟩
        intro heq
        have hmem : fd.1 ∈ rest.map Prod.fst := heq ▸ List.mem_map.mpr ⟨fd', hfd', rfl⟩
        exact (List.nodup_cons.mp hnodup).1 hmem)
      (List.nodup_cons.mp hnodup).2
    simpa [List.append_assoc] using hrest

theorem processZipEntries_lib (pd : Option PackageDefinition) (c : Option Content)
    (libs : List Library) (lib : Library)
    (hwf : wellFormedLibrary lib)
    (hfree : ∀ l ∈ libs, l.machineName ≠ lib.machineName) :
    processZipEntries ⟨pd, c, libs⟩ (writeLibraryToZip lib) =
      Except.ok ⟨pd, c, libs ++ [lib]⟩ := by
  obtain ⟨ldef, lsem, lmn, lfiles⟩ := lib
  obtain ⟨hmn, hsem, hne, hnodup, hpaths⟩ := hwf
  simp only at hmn hsem hne hnodup hpaths hfree
  cases ldef with
  | some d =>
    have hdefstep := processZipFile_libJson_entry ⟨pd, c, libs⟩ lmn d hmn.1
    have hdeffoc := findOrCreateLibrary_absent libs lmn (setLibDef d) hfree
    cases lsem with
    | some j =>
      have hj : j ≠ Json.null := fun h => hsem (by rw [h])
      have hsemstep := processZipFile_semJson_entry
        (⟨pd, c, libs ++ [⟨some d, none, lmn, []⟩]⟩ : H5PPackage) lmn j hmn.1 hj
      have hsemfoc := findOrCreateLibrary_last libs (⟨some d, none, lmn, []⟩ : Library)
        lmn (setLibSem (some j)) hfree rfl
      have hfin := processZipEntries_files pd c libs
        ⟨some d, some j, lmn, []⟩ lfiles hmn hfree hpaths (by simp) hnodup
      simp only [writeLibraryToZip, List.singleton_append, List.cons_append,
        processZipEntries, hdefstep, hdeffoc, setLibDef, hsemstep, hsemfoc, setLibSem]
      simpa using hfin
    | none =>
      have hfin := processZipEntries_files pd c libs
        ⟨some d, none, lmn, []⟩ lfiles hmn hfree hpaths (by simp) hnodup
      simp only [writeLibraryToZip, List.singleton_append, List.cons_append, List.nil_append,
        processZipEntries, hdefstep, hdeffoc, setLibDef]
      simpa using hfin
  | none =>
    cases lsem with
    | some j =>
      have hj : j ≠ Json.null := fun h => hsem (by rw [h])
      have hsemstep := processZipFile_semJson_entry (⟨pd, c, libs⟩ : H5PPackage) lmn j hmn.1 hj
      have hsemfoc := findOrCreateLibrary_absent libs lmn (setLibSem (some j)) hfree
      have hfin := processZipEntries_files pd c libs
        ⟨none, some j, lmn, []⟩ lfiles hmn hfree hpaths (by simp) hnodup
      simp only [writeLibraryToZip, List.singleton_append, List.cons_append, List.nil_append,
        processZipEntries, hsemstep, hsemfoc, setLibSem]
      simpa using hfin
    | none =>
      have hfiles : lfiles ≠ [] := by
        rcases hne with h | h | h
        · exact absurd rfl h
        · exact absurd rfl h
        · exact h
      obtain ⟨fd, rest, rfl⟩ : ∃ fd rest, lfiles = fd :: rest := by
        cases lfiles with
        | nil => exact absurd rfl hfiles
        | cons fd rest => exact ⟨fd, rest, rfl⟩
      have hfstep := processZipFile_file_entry (⟨pd, c, libs⟩ : H5PPackage) lmn fd.1 fd.2 hmn
        (hpaths fd (List.mem_cons_self fd rest))
      have hffoc := findOrCreateLibrary_absent libs lmn (addLibFile fd.1 fd.2) hfree
      have hfin := processZipEntries_files pd c libs
        ⟨none, none, lmn, [(fd.1, fd.2)]⟩ rest hmn hfree
        (fun fd' hfd' => hpaths fd' (List.mem_cons_of_mem fd hfd'))
        (by
          intro fd' hfd'
          simp only [List.map_cons, List.map_nil, List.mem_singleton]
          intro heq
          have hmem : fd.1 ∈ rest.map Prod.fst := heq ▸ List.mem_map.mpr ⟨fd', hfd', rfl⟩
          exact (List.nodup_cons.mp hnodup).1 hmem)
        (List.nodup_cons.mp hnodup).2
      simp only [writeLibraryToZip, List.nil_append, List.map_cons,
        processZipEntries, hfstep, hffoc, addLibFile, goMapInsert]
      simpa using hfin

theorem processZipEntries_libs (pd : Option PackageDefinition) (c : Option Content)
    (done rest : List Library)
    (hwf : ∀ l ∈ rest, wellFormedLibrary l)
    (hnodup : ((done ++ rest).map Library.machineName).Nodup) :
    processZipEntries ⟨pd, c, done⟩ ((rest.map writeLibraryToZip).flatten) =
      Except.ok ⟨pd, c, done ++ rest⟩ := by
  induction rest generalizing done with
  | nil => simp [processZipEntries]
  | cons L rest' ih =>
    rw [List.map_cons, List.flatten_cons, processZipEntries_append]
    have hfree : ∀ l ∈ done, l.machineName ≠ L.machineName := by
      intro l hl heq
      rw [List.map_append] at hnodup
      obtain ⟨-, -, hdisj⟩ := List.nodup_append.mp hnodup
      exact hdisj (List.mem_map.mpr ⟨l, hl, rfl⟩)
        (by rw [heq]; exact List.mem_map.mpr ⟨L, List.mem_cons_self L rest', rfl⟩)
    rw [processZipEntries_lib pd c done L (hwf L (List.mem_cons_self L rest')) hfree]
    have hrest := ih (done ++ [L])
      (fun l hl => hwf l (List.mem_cons_of_mem L hl))
      (by simpa [List.append_assoc] using hnodup)
    simpa [List.append_assoc] using hrest

/-! ## Claim C1: archive round trip -/

/-- Claim C1, counterexample to the claim as stated: `badPkg` has non-null
content and one library, yet loading the written archive does not reproduce
that library — its machine name lacks the `"H5P."` token, so its file entry is
dropped by the reader.  The load succeeds and yields `loadedBadPkg`, in which
the library's file map is empty. -/
theorem roundTripFaithful_fails :
    badPkg.content ≠ none ∧ badPkg.libraries ≠ [] ∧ ¬ roundTripFaithful badPkg := by
  refine ⟨by decide, by decide, ?_⟩
  rintro ⟨pkg', heq, -, -, hlibs⟩
  have hload : LoadH5PPackage (CreateZipFile badPkg) = Except.ok loadedBadPkg := by rfl
  have hpkg' : pkg' = loadedBadPkg := Except.ok.inj (heq.symm.trans hload)
  subst hpkg'
  exact absurd (hlibs badLib (by decide)) (by decide)

/-- Claim C1 (amended): for every package with non-null content and at least
one library, if additionally every library machine name carries the `"H5P."`
token and no slash, machine names are pairwise distinct, every library emits at
least one entry, no schema is the bare JSON null, file paths are unique within
a library and do not collide with the `library.json`/`semantics.json` suffix
dispatch, and the content payload carries no JSON-null `interface` field, then
writing the package and loading it back reproduces it exactly. -/
theorem load_write_roundTrip (pkg : H5PPackage) (hwf : wellFormedPackage pkg)
    (hcontent : pkg.content ≠ none) (hlibs : pkg.libraries ≠ []) :
    LoadH5PPackage (CreateZipFile pkg) = Except.ok pkg := by
  obtain ⟨pd, c, libs⟩ := pkg
  obtain ⟨hnodup, hwfl, hcnorm⟩ := hwf
  simp only at hnodup hwfl hcnorm hcontent
  cases c with
  | none => exact absurd rfl hcontent
  | some cc =>
  have hccnorm : normContent cc = cc := hcnorm cc rfl
  have hlibsproc := processZipEntries_libs pd (some cc) [] libs
    (fun l hl => hwfl l hl) (by simpa using hnodup)
  cases pd with
  | none =>
    have hcontstep : processZipEntries ⟨none, none, []⟩
        [⟨contentJsonName, ZipData.contentJson cc⟩] = Except.ok ⟨none, some cc, []⟩ := by
      have hne : ¬ (contentJsonName = h5pJsonName) := by decide
      simp [processZipEntries, processZipFile, hne, unmarshalContent, hccnorm]
    rw [CreateZipFile, writeToZip, LoadH5PPackage, NewH5PPackage]
    simp only [List.nil_append]
    show processZipEntries ⟨none, none, []⟩
        ([⟨contentJsonName, ZipData.contentJson cc⟩] ++
          (List.map writeLibraryToZip libs).flatten) = _
    rw [processZipEntries_append, hcontstep]
    simpa using hlibsproc
  | some d =>
    have hhdr : processZipEntries ⟨none, none, []⟩
        [⟨h5pJsonName, ZipData.pkgDefJson d⟩, ⟨contentJsonName, ZipData.contentJson cc⟩] =
        Except.ok ⟨some d, some cc, []⟩ := by
      have hne : ¬ (contentJsonName = h5pJsonName) := by decide
      simp [processZipEntries, processZipFile, hne, unmarshalPackageDefinition,
        unmarshalContent, hccnorm]
    rw [CreateZipFile, writeToZip, LoadH5PPackage, NewH5PPackage]
    simp only [List.singleton_append, List.cons_append, List.nil_append]
    show processZipEntries ⟨none, none, []⟩
        ([⟨h5pJsonName, ZipData.pkgDefJson d⟩, ⟨contentJsonName, ZipData.contentJson cc⟩] ++
          (List.map writeLibraryToZip libs).flatten) = _
    rw [processZipEntries_append, hhdr]
    simpa using hlibsproc

/-- Witness for the amended round-trip theorem at a concrete well-formed
package with a definition, a schema and two files. -/
theorem load_write_roundTrip_witness :
    LoadH5PPackage (CreateZipFile goodPkg) = Except.ok goodPkg :=
  load_write_roundTrip goodPkg (by decide) (by decide) (by decide)

/-! ## Claim C2: validation is fail-fast, not accumulating -/

theorem firstFeedbackError_eq_head (rs : List FeedbackRange) (i : Nat) :
    firstFeedbackError rs i = (badFeedbackRules rs i).head? := by
  induction rs generalizing i with
  | nil => rfl
  | cons r rest ih =>
    rw [firstFeedbackError, badFeedbackRules]
    by_cases h : r.rangeFrom > r.rangeTo
    · simp [h]
    · simp [h, ih]

theorem checkAnswers_no_empty (answers : List Schemas.AnswerOption) (n : Nat)
    (h : ∀ a ∈ answers, a.text ≠ "") :
    Schemas.checkAnswers answers n =
      Except.ok (n + (answers.filter (fun a => a.correct)).length) := by
  induction answers generalizing n with
  | nil => simp [Schemas.checkAnswers]
  | cons a rest ih =>
    rw [Schemas.checkAnswers, if_neg (h a (List.mem_cons_self a rest))]
    rw [ih _ (fun a' ha' => h a' (List.mem_cons_of_mem a ha'))]
    by_cases hc : a.correct = true
    · simp only [hc, if_true, List.filter_cons, List.length_cons]
      congr 1
      omega
    · simp only [hc, if_false, List.filter_cons]
      congr 1

theorem checkAnswers_empty_text (answers : List Schemas.AnswerOption) (n : Nat)
    (h : ∃ a ∈ answers, a.text = "") :
    Schemas.checkAnswers answers n = Except.error Schemas.MCValidationError.emptyAnswerText := by
  induction answers generalizing n with
  | nil => simp at h
  | cons a rest ih =>
    rw [Schemas.checkAnswers]
    by_cases he : a.text = ""
    · simp [he]
    · rw [if_neg he]
      rcases h with ⟨a', ha', he'⟩
      rcases List.mem_cons.mp ha' with rfl | hrest
      · exact absurd he' he
      · exact ih _ ⟨a', hrest, he'⟩

/-- Claim C2, counterexample: a question set violating both the
at-least-one-question rule and the pass-percentage rule, and multi-choice
params violating both the correct-answer rule and the pass-percentage rule,
each get only the first violation reported by a validation call. -/
theorem validation_not_accumulating :
    ¬ reportsAllViolations qsBothBad ∧ ¬ mcReportsAllViolations mcBothBad := by decide

/-- Claim C2 (amended): a single validation call is fail-fast: it reports
exactly the first violated rule in the source's check order (or success when
no rule is violated), both for `QuestionSet.Validate` and for
`MultiChoiceParams.Validate`. -/
theorem validate_fail_fast (qs : QuestionSet) (p : Schemas.MultiChoiceParams) :
    qs.validate = qs.violatedRules.head? ∧ p.validate = p.violatedRules.head? := by
  constructor
  · rw [QuestionSet.validate, QuestionSet.violatedRules]
    by_cases h1 : qs.questions.length = 0
    · simp [h1]
    · by_cases h2 : qs.passPercentage < 0 ∨ qs.passPercentage > 100
      · simp [h1, h2]
      · simp [h1, h2, firstFeedbackError_eq_head]
  · rw [Schemas.MultiChoiceParams.validate, Schemas.MultiChoiceParams.violatedRules]
    by_cases h1 : p.question = ""
    · simp [h1]
    · by_cases h2 : p.answers.length < 1
      · have ha : p.answers = [] := by
          cases hp : p.answers with
          | nil => rfl
          | cons x xs => rw [hp] at h2; simp at h2
        simp [h1, h2, ha]
      · by_cases h3 : ∃ a ∈ p.answers, a.text = ""
        · obtain ⟨a0, ha0, he0⟩ := h3
          have hfe : p.answers.filter (fun a => a.text = "") ≠ [] := by
            intro hnil
            have hall := List.filter_eq_nil_iff.mp hnil a0 ha0
            simp [he0] at hall
          rcases hcons : p.answers.filter (fun a => a.text = "") with _ | ⟨f0, frest⟩
          · exact absurd hcons hfe
          · simp [h1, h2, hcons, checkAnswers_empty_text p.answers 0 ⟨a0, ha0, he0⟩]
        · have h3' : ∀ a ∈ p.answers, a.text ≠ "" := by
            intro a ha he
            exact h3 ⟨a, ha, he⟩
          have hfilter : p.answers.filter (fun a => a.text = "") = [] := by
            rw [List.filter_eq_nil_iff]
            intro a ha
            simp [h3' a ha]
          rw [checkAnswers_no_empty p.answers 0 h3']
          by_cases h4 : (p.answers.filter fun a => a.correct).length = 0
          · simp [h1, h2, hfilter, h4]
          · cases hb : p.behaviour with
            | none => simp [h1, h2, hfilter, h4, hb]
            | some b =>
              by_cases h6 : b.passPercentage < 0 ∨ b.passPercentage > 100
              · simp [h1, h2, hfilter, h4, hb, h6]
                try split_ifs <;> simp
              · simp [h1, h2, hfilter, h4, hb, h6]
                try split_ifs <;> simp

/-! ## Claim C4: validation boundary values -/

/-- Claim C4: with at least one question, `Validate` accepts a pass percentage
of exactly 0 and exactly 100 and rejects -1 and 101; a feedback range with
`from = to` is accepted and one with `from > to` is rejected; likewise the
multi-choice behaviour pass percentage accepts 0 and 100 and rejects -1
and 101. -/
theorem validate_boundary_values (qs : QuestionSet) (h : qs.questions ≠ [])
    (a b : Int) (t : String) :
    ({ qs with passPercentage := 0, overallFeedback := [] } : QuestionSet).validate = none ∧
    ({ qs with passPercentage := 100, overallFeedback := [] } : QuestionSet).validate = none ∧
    ({ qs with passPercentage := -1 } : QuestionSet).validate =
      some QSValidationError.passPercentageOutOfRange ∧
    ({ qs with passPercentage := 101 } : QuestionSet).validate =
      some QSValidationError.passPercentageOutOfRange ∧
    ({ qs with passPercentage := 0, overallFeedback := [⟨a, a, t⟩] } : QuestionSet).validate =
      none ∧
    (a > b →
      ({ qs with passPercentage := 0, overallFeedback := [⟨a, b, t⟩] } : QuestionSet).validate =
        some (QSValidationError.feedbackRangeInvalid 0)) ∧
    (mcWithPP 0).validate = none ∧
    (mcWithPP 100).validate = none ∧
    (mcWithPP (-1)).validate = some Schemas.MCValidationError.passPercentageOutOfRange ∧
    (mcWithPP 101).validate = some Schemas.MCValidationError.passPercentageOutOfRange := by
  have hlen : ¬ (qs.questions.length = 0) := by
    simpa [List.length_eq_zero] using h
  refine ⟨?_, ?_, ?_, ?_, ?_, ?_, by rfl, by rfl, by rfl, by rfl⟩
  · simp [QuestionSet.validate, hlen, firstFeedbackError]
  · simp [QuestionSet.validate, hlen, firstFeedbackError]
  · simp [QuestionSet.validate, hlen]
  · simp [QuestionSet.validate, hlen]
  · simp [QuestionSet.validate, hlen, firstFeedbackError]
  · intro hab
    simp [QuestionSet.validate, hlen, firstFeedbackError, hab]

/-- Witness for the boundary-value theorem at a one-question set and the
concrete feedback bounds 5/5 and 5/3. -/
theorem validate_boundary_values_witness :
    ({ qsOneQuestion with passPercentage := 0, overallFeedback := [] } : QuestionSet).validate =
      none ∧
    ({ qsOneQuestion with passPercentage := 100, overallFeedback := [] } : QuestionSet).validate =
      none ∧
    ({ qsOneQuestion with passPercentage := -1 } : QuestionSet).validate =
      some QSValidationError.passPercentageOutOfRange ∧
    ({ qsOneQuestion with passPercentage := 101 } : QuestionSet).validate =
      some QSValidationError.passPercentageOutOfRange ∧
    ({ qsOneQuestion with passPercentage := 0, overallFeedback := [fb 5 5] } : QuestionSet).validate = none ∧
    ({ qsOneQuestion with passPercentage := 0, overallFeedback := [fb 5 3] } : QuestionSet).validate =
      some (QSValidationError.feedbackRangeInvalid 0) ∧
    (mcWithPP 0).validate = none ∧
    (mcWithPP 101).validate = some Schemas.MCValidationError.passPercentageOutOfRange := by
  have hw := validate_boundary_values qsOneQuestion (by decide) 5 3 Semantics.emptyString
  have hw5 := validate_boundary_values qsOneQuestion (by decide) 5 5 Semantics.emptyString
  simp only [fb]
  exact ⟨hw.1, hw.2.1, hw.2.2.1, hw.2.2.2.1, hw5.2.2.2.2.1,
    hw.2.2.2.2.2.1 (by decide), hw.2.2.2.2.2.2.1, hw.2.2.2.2.2.2.2.2.2⟩

/-! ## Claim C5: entries outside the library naming convention -/

/-- Claim C5, counterexample to the claim as stated: the entry
`Foo/semantics.json` has a top-level directory that does not match the
`"H5P."` convention, yet it is not ignored — loading an archive holding only
that entry produces a package containing a library named `Foo`; and the
equally non-matching `Foo/library.json` with malformed data makes the whole
load fail. -/
theorem nonLibrary_toplevel_not_ignored :
    isLibraryDirectory (goSplitFirst eFooSem.name) = false ∧
    LoadH5PPackage [eFooSem] = Except.ok fooLoadedPkg ∧
    fooLoadedPkg.libraries ≠ [] ∧
    LoadH5PPackage [⟨fooLibJsonName, ZipData.malformed []⟩] =
      Except.error ⟨fooLibJsonName, JsonError.badLibraryDefinition⟩ :=
  ⟨rfl, rfl, by decide, rfl⟩

/-- Claim C5 (amended): every entry that is not `h5p.json` or
`content/content.json` and does not end in `/library.json` or
`/semantics.json`, and whose top-level directory name does not start with
`"H5P."`, is silently ignored: processing it leaves the package unchanged and
reports no error, so the load succeeds and nothing from the entry appears. -/
theorem nonSpecial_nonLibrary_entry_ignored (pkg : H5PPackage) (e : ZipEntry)
    (h1 : e.name ≠ h5pJsonName) (h2 : e.name ≠ contentJsonName)
    (h3 : goEndsWith e.name libraryJsonSuf = false)
    (h4 : goEndsWith e.name semanticsJsonSuf = false)
    (h5 : isLibraryDirectory (goSplitFirst e.name) = false) :
    processZipFile pkg e = Except.ok pkg := by
  rw [processZipFile, if_neg h1, if_neg h2, if_neg (by simp [h3]), if_neg (by simp [h4])]
  by_cases h6 : goContainsChar e.name '/' = true
  · rw [if_pos h6, if_neg (by simp [h5])]
  · rw [if_neg h6]

/-- Witness for the amended ignore theorem at a concrete non-matching entry. -/
theorem nonSpecial_nonLibrary_entry_ignored_witness :
    processZipFile NewH5PPackage eReadme = Except.ok NewH5PPackage :=
  nonSpecial_nonLibrary_entry_ignored NewH5PPackage eReadme (by decide) (by decide)
    (by decide) (by decide) (by decide)

/-! ## Claim C6: malformed JSON in required entries is fatal -/

theorem processZipFile_malformed_required (pkg : H5PPackage) (n : GoStr) (b : List Nat)
    (hn : structurallyRequiredName n) :
    ∃ c, processZipFile pkg ⟨n, ZipData.malformed b⟩ = Except.error c := by
  by_cases h1 : n = h5pJsonName
  · exact ⟨JsonError.badPackageDefinition, by simp [processZipFile, h1, unmarshalPackageDefinition]⟩
  · by_cases h2 : n = contentJsonName
    · exact ⟨JsonError.badContent, by
        have hch : ¬ (contentJsonName = h5pJsonName) := by decide
        simp [processZipFile, h1, h2, hch, unmarshalContent]⟩
    · by_cases h3 : goEndsWith n libraryJsonSuf = true
      · exact ⟨JsonError.badLibraryDefinition,
          by simp [processZipFile, h1, h2, h3, unmarshalLibraryDefinition]⟩
      · by_cases h4 : goEndsWith n semanticsJsonSuf = true
        · exact ⟨JsonError.badSemantics,
            by simp [processZipFile, h1, h2, h3, h4, unmarshalGoValue]⟩
        · rcases hn with h | h | h | h
          · exact absurd h h1
          · exact absurd h h2
          · exact absurd h h3
          · exact absurd h h4

theorem processZipEntries_malformed (pkg : H5PPackage) (entries : List ZipEntry)
    (enm : GoStr) (b : List Nat) (he : (⟨enm, ZipData.malformed b⟩ : ZipEntry) ∈ entries)
    (hn : structurallyRequiredName enm) :
    ∃ le : LoadError, processZipEntries pkg entries = Except.error le ∧
      le.fileName ∈ entries.map ZipEntry.name := by
  induction entries generalizing pkg with
  | nil => simp at he
  | cons f rest ih =>
    cases hproc : processZipFile pkg f with
    | error c =>
      exact ⟨⟨f.name, c⟩, by simp [processZipEntries, hproc], by simp⟩
    | ok p =>
      rcases List.mem_cons.mp he with heq | hrest
      · obtain ⟨c, hc⟩ := processZipFile_malformed_required pkg enm b hn
        rw [← heq] at hproc
        rw [hproc] at hc
        exact Except.noConfusion hc
      · obtain ⟨le, hle, hmem⟩ := ih p hrest
        exact ⟨le, by simp [processZipEntries, hproc, hle], by simp [hmem]⟩

/-- Claim C6: if any archive entry named `h5p.json` or `content/content.json`,
or ending in `/library.json` or `/semantics.json`, holds malformed JSON, the
load aborts: it returns an error instead of a package, and the error carries
the name of the archive entry that failed. -/
theorem malformed_required_entry_aborts (entries : List ZipEntry)
    (enm : GoStr) (b : List Nat) (he : (⟨enm, ZipData.malformed b⟩ : ZipEntry) ∈ entries)
    (hn : structurallyRequiredName enm) :
    ∃ le : LoadError, LoadH5PPackage entries = Except.error le ∧
      le.fileName ∈ entries.map ZipEntry.name :=
  processZipEntries_malformed NewH5PPackage entries enm b he hn

/-- Witness for the malformed-entry theorem at a one-entry archive whose
`h5p.json` is not valid JSON. -/
theorem malformed_required_entry_aborts_witness :
    ∃ le : LoadError, LoadH5PPackage [⟨h5pJsonName, ZipData.malformed []⟩] = Except.error le ∧
      le.fileName ∈ ([⟨h5pJsonName, ZipData.malformed []⟩] : List ZipEntry).map ZipEntry.name :=
  malformed_required_entry_aborts [⟨h5pJsonName, ZipData.malformed []⟩] h5pJsonName []
    (by decide) (Or.inl rfl)

/-! ## Claim C7: writer entry order -/

theorem writeLibraryToZip_names (l : Library) :
    (writeLibraryToZip l).map ZipEntry.name =
      (if l.definition.isSome then [pathConcat l.machineName libraryJsonFile] else []) ++
      (if l.semantics.isSome then [pathConcat l.machineName semanticsJsonFile] else []) ++
      l.files.map (fun fd => pathConcat l.machineName fd.1) := by
  cases hd : l.definition <;> cases hs : l.semantics <;>
    simp [writeLibraryToZip, hd, hs, Function.comp]

/-- Claim C7: the writer emits entry names in the fixed order `h5p.json`
(when present), then `content/content.json` (when present), then each library
in insertion order (`AddLibrary` appends), and within each library its
`library.json`, then its `semantics.json`, then its files in map order. -/
theorem writeToZip_entry_order (pkg : H5PPackage) (lib : Library) :
    (writeToZip pkg).map ZipEntry.name =
      (if pkg.packageDefinition.isSome then [h5pJsonName] else []) ++
      (if pkg.content.isSome then [contentJsonName] else []) ++
      (pkg.libraries.map (fun l =>
        (if l.definition.isSome then [pathConcat l.machineName libraryJsonFile] else []) ++
        (if l.semantics.isSome then [pathConcat l.machineName semanticsJsonFile] else []) ++
        l.files.map (fun fd => pathConcat l.machineName fd.1))).flatten ∧
    (AddLibrary pkg lib).libraries = pkg.libraries ++ [lib] := by
  refine ⟨?_, rfl⟩
  rw [writeToZip]
  simp only [List.map_append, List.map_flatten, List.map_map]
  congr 1
  · congr 1
    · cases pkg.packageDefinition <;> simp
    · cases pkg.content <;> simp
  · refine congrArg List.flatten (List.map_congr_left (fun l _ => ?_))
    simpa [Function.comp] using writeLibraryToZip_names l

/-! ## Claim C8: no path sanitization -/

/-- Claim C8: every file of every library is written at the entry name formed
by plain concatenation of the machine name, a slash and the relative path; no
normalization happens, so any substring of the relative path (for example
`../`) appears verbatim in the entry name. -/
theorem writeToZip_path_verbatim (pkg : H5PPackage) (lib : Library) (p : GoStr) (d : ZipData)
    (hlib : lib ∈ pkg.libraries) (hf : (p, d) ∈ lib.files) :
    (⟨lib.machineName ++ '/' :: p, d⟩ : ZipEntry) ∈ writeToZip pkg ∧
    ∀ s : GoStr, s <:+: p → s <:+: lib.machineName ++ '/' :: p := by
  constructor
  · rw [writeToZip]
    refine List.mem_append.mpr (Or.inr ?_)
    rw [List.mem_flatten]
    refine ⟨writeLibraryToZip lib, List.mem_map.mpr ⟨lib, hlib, rfl⟩, ?_⟩
    rw [writeLibraryToZip]
    refine List.mem_append.mpr (Or.inr ?_)
    exact List.mem_map.mpr ⟨(p, d), hf, rfl⟩
  · intro s hs
    exact hs.trans ⟨lib.machineName ++ ['/'], [], by simp⟩

/-- Witness for the verbatim-path theorem: a relative path starting `../` is
written unchanged into the archive. -/
theorem writeToZip_path_verbatim_witness :
    (⟨goodMachine ++ '/' :: dotDotPath, ZipData.raw [7]⟩ : ZipEntry) ∈ writeToZip travPkg ∧
    dotDotStr <:+: goodMachine ++ '/' :: dotDotPath := by
  have h := writeToZip_path_verbatim travPkg travLib dotDotPath (ZipData.raw [7])
    (by decide) (by decide)
  exact ⟨h.1, h.2 dotDotStr (by decide)⟩

/-! ## Claim C9: absent parts are omitted, never an error -/

/-- Claim C9: writing a package whose package definition is nil (or whose
content is nil) succeeds — the writer is total — and simply omits the
`h5p.json` (respectively `content/content.json`) entry: the archive is just
the remaining parts, and with a nil package definition no entry at all is
named `h5p.json`. -/
theorem writeToZip_omits_absent_parts (pkg : H5PPackage) :
    (pkg.packageDefinition = none →
      writeToZip pkg =
        (match pkg.content with
         | some c => [⟨contentJsonName, ZipData.contentJson c⟩]
         | none => []) ++ (pkg.libraries.map writeLibraryToZip).flatten ∧
      ∀ e ∈ writeToZip pkg, e.name ≠ h5pJsonName) ∧
    (pkg.content = none →
      writeToZip pkg =
        (match pkg.packageDefinition with
         | some d => [⟨h5pJsonName, ZipData.pkgDefJson d⟩]
         | none => []) ++ (pkg.libraries.map writeLibraryToZip).flatten) := by
  constructor
  · intro hpd
    constructor
    · rw [writeToZip, hpd]
      rfl
    · intro e hee
      rw [writeToZip, hpd] at hee
      simp only [List.nil_append] at hee
      rcases List.mem_append.mp hee with hc | hf
      · cases hcv : pkg.content with
        | none =>
          rw [hcv] at hc
          simp at hc
        | some c =>
          rw [hcv] at hc
          simp only [List.mem_singleton] at hc
          rw [hc]
          show contentJsonName ≠ h5pJsonName
          decide
      · rw [List.mem_flatten] at hf
        obtain ⟨l', hl', hel⟩ := hf
        obtain ⟨lb, _, rfl⟩ := List.mem_map.mp hl'
        obtain ⟨f, hfname⟩ := writeLibraryToZip_name_shape lb e hel
        rw [hfname]
        exact pathConcat_ne_h5pJsonName _ _
  · intro hc
    rw [writeToZip, hc]
    rw [List.append_nil]

/-- Witness for the omission theorem at a package with neither definition nor
content. -/
theorem writeToZip_omits_absent_parts_witness :
    writeToZip travPkg = (travPkg.libraries.map writeLibraryToZip).flatten ∧
    ∀ e ∈ writeToZip travPkg, e.name ≠ h5pJsonName := by
  have h := writeToZip_omits_absent_parts travPkg
  exact ⟨by simpa using (h.2 rfl), (h.1 rfl).2⟩

/-! ## Claims C3 and C10: the polymorphic options accessors -/

theorem collectLibraryStrings_bad_elem (xs : List Json)
    (h : ∃ x ∈ xs, Json.isStr x = false) :
    Semantics.collectLibraryStrings xs = none := by
  induction xs with
  | nil => simp at h
  | cons x rest ih =>
    cases x
    case str s =>
      have hrest : ∃ y ∈ rest, Json.isStr y = false := by
        rcases h with ⟨y, hy, hbad⟩
        rcases List.mem_cons.mp hy with rfl | hr
        · simp [Json.isStr] at hbad
        · exact ⟨y, hr, hbad⟩
      simp [Semantics.collectLibraryStrings, ih hrest]
    all_goals simp [Semantics.collectLibraryStrings]

theorem collectSelectOptions_bad_elem (xs : List Json)
    (h : ∃ x ∈ xs, Semantics.decodeSelectElem x = none) :
    Semantics.collectSelectOptions xs = none := by
  induction xs with
  | nil => simp at h
  | cons x rest ih =>
    cases hdx : Semantics.decodeSelectElem x with
    | none => simp [Semantics.collectSelectOptions, hdx]
    | some o =>
      have hrest : ∃ y ∈ rest, Semantics.decodeSelectElem y = none := by
        rcases h with ⟨y, hy, hbad⟩
        rcases List.mem_cons.mp hy with rfl | hr
        · rw [hdx] at hbad
          exact absurd hbad (by simp)
        · exact ⟨y, hr, hbad⟩
      simp [Semantics.collectSelectOptions, hdx, ih hrest]

/-- Claim C3: a nonempty select-shaped options payload (every element an
object) decoded through the library accessor gives nil, and a nonempty
library-shaped payload (every element a string) decoded through the select
accessor gives nil — so a select-typed field's payload never yields
library-shaped output and vice versa; and any payload with a non-conforming
element (a non-string for the library shape; a non-object or a non-string
`value`/`label` for the select shape) decodes to nil, never to an exception or
a partially decoded list. -/
theorem options_shape_invariant :
    (∀ (f : Semantics.Field) (xs : List Json),
      f.options = some (Semantics.OptionsValue.generic xs) → xs ≠ [] →
      (∀ x ∈ xs, Json.isObj x = true) → f.getLibraryOptions = none) ∧
    (∀ (f : Semantics.Field) (xs : List Json),
      f.options = some (Semantics.OptionsValue.generic xs) → xs ≠ [] →
      (∀ x ∈ xs, Json.isStr x = true) → f.getSelectOptions = none) ∧
    (∀ (f : Semantics.Field) (xs : List Json),
      f.options = some (Semantics.OptionsValue.generic xs) →
      (∃ x ∈ xs, Json.isStr x = false) → f.getLibraryOptions = none) ∧
    (∀ (f : Semantics.Field) (xs : List Json),
      f.options = some (Semantics.OptionsValue.generic xs) →
      (∃ x ∈ xs, Semantics.decodeSelectElem x = none) → f.getSelectOptions = none) := by
  refine ⟨?_, ?_, ?_, ?_⟩
  · intro f xs hopt hne hall
    rw [Semantics.Field.getLibraryOptions, hopt]
    apply collectLibraryStrings_bad_elem
    cases xs with
    | nil => exact absurd rfl hne
    | cons x rest =>
      refine ⟨x, List.mem_cons_self x rest, ?_⟩
      have hx := hall x (List.mem_cons_self x rest)
      cases x <;> simp_all [Json.isObj, Json.isStr]
  · intro f xs hopt hne hall
    rw [Semantics.Field.getSelectOptions, hopt]
    apply collectSelectOptions_bad_elem
    cases xs with
    | nil => exact absurd rfl hne
    | cons x rest =>
      refine ⟨x, List.mem_cons_self x rest, ?_⟩
      have hx := hall x (List.mem_cons_self x rest)
      cases x <;> simp_all [Json.isStr, Semantics.decodeSelectElem]
  · intro f xs hopt hbad
    rw [Semantics.Field.getLibraryOptions, hopt]
    exact collectLibraryStrings_bad_elem xs hbad
  · intro f xs hopt hbad
    rw [Semantics.Field.getSelectOptions, hopt]
    exact collectSelectOptions_bad_elem xs hbad

/-- Witness for the options-shape theorem: a select-shaped payload through the
library accessor, a library-shaped payload through the select accessor, a
mixed payload, and an object with a numeric `value` all decode to nil. -/
theorem options_shape_invariant_witness :
    fieldSelectShaped.getLibraryOptions = none ∧
    fieldLibraryShaped.getSelectOptions = none ∧
    fieldMixed.getLibraryOptions = none ∧
    fieldBadValue.getSelectOptions = none := by
  have h := options_shape_invariant
  exact ⟨h.1 fieldSelectShaped [selectShapedElem] rfl (by decide) (by decide),
    h.2.1 fieldLibraryShaped [Json.str libOptionStr] rfl (by decide) (by decide),
    h.2.2.1 fieldMixed [Json.str libOptionStr, Json.num 3] rfl
      ⟨Json.num 3, by decide, by decide⟩,
    h.2.2.2 fieldBadValue [Json.obj [(Semantics.valueKey, Json.num 3)]] rfl
      ⟨Json.obj [(Semantics.valueKey, Json.num 3)], by decide, by decide⟩⟩

/-- Claim C10: for a field whose options payload is the unmarshalled empty
list, both accessors decode it successfully to an empty but non-nil slice: the
nil mismatch signal is not produced for it, and the two shapes are
indistinguishable at the empty list. -/
theorem empty_options_decode_both (f : Semantics.Field)
    (h : f.options = some (Semantics.OptionsValue.generic [])) :
    f.getLibraryOptions = some [] ∧ f.getSelectOptions = some [] := by
  rw [Semantics.Field.getLibraryOptions, Semantics.Field.getSelectOptions, h]
  exact ⟨rfl, rfl⟩

/-- Witness for the empty-options theorem at a concrete field. -/
theorem empty_options_decode_both_witness :
    fieldEmptyOptions.getLibraryOptions = some [] ∧
    fieldEmptyOptions.getSelectOptions = some [] :=
  empty_options_decode_both fieldEmptyOptions rfl
